/-
Verification of the MEG315 AD-HTC integrated-system optimizer
(`backend/app/core/optimization/optimizer.py`, class `SystemOptimizer`).

The development shallowly embeds the optimizer's algorithms over exact
rationals: the Pareto non-dominance filter, the genetic best-so-far
fitness history, the gradient-descent loop with numerical gradients and
bounds clipping, the fitness combination, the constraint checker and the
convergence diagnostics.  Python floats are modelled by ℚ; the `-np.inf`
sentinel by `WithBot ℚ`; dictionaries with possibly-missing keys by
structures of `Option ℚ` fields.  Strategy-specific fitness evaluation is
abstracted as a function parameter exactly where the Python methods call
`self._evaluate_fitness`.
-/
import Mathlib

/-! ## Pareto frontier (`SystemOptimizer._pareto_optimization`)

Each candidate solution carries the objective triple recorded by the code:
`efficiency = performance.get('overall_efficiency', 0)`,
`power = performance.get('net_power_kw', 0)`,
`cost = performance.get('specific_cost', 1000)`. -/

structure Solution where
  efficiency : ℚ
  power : ℚ
  cost : ℚ
deriving DecidableEq

/-- The dominance test from the inner loop of `_pareto_optimization`:
`other` dominates `sol` iff `other` is at least as good on all three
objectives and strictly better on at least one. -/
def dominates (other sol : Solution) : Bool :=
  decide (sol.efficiency ≤ other.efficiency) &&
  decide (sol.power ≤ other.power) &&
  decide (other.cost ≤ sol.cost) &&
  (decide (sol.efficiency < other.efficiency) ||
   decide (sol.power < other.power) ||
   decide (other.cost < sol.cost))

/-- Insertion step for the descending-by-efficiency sort
(`pareto_frontier.sort(key=lambda x: x['efficiency'], reverse=True)`). -/
def insertDesc (s : Solution) : List Solution → List Solution
  | [] => [s]
  | t :: ts => if t.efficiency < s.efficiency then s :: t :: ts else t :: insertDesc s ts

/-- Sort a solution list by efficiency, descending. -/
def sortByEfficiencyDesc : List Solution → List Solution
  | [] => []
  | s :: ss => insertDesc s (sortByEfficiencyDesc ss)

/-- The frontier construction of `_pareto_optimization`: keep every solution not
dominated by some member of the candidate list, then sort by efficiency
descending. -/
def paretoFrontier (solutions : List Solution) : List Solution :=
  sortByEfficiencyDesc
    (solutions.filter (fun sol => ! solutions.any (fun other => dominates other sol)))

/-- Linear key used to exhibit a non-dominated candidate: domination
strictly increases `efficiency + power - cost`. -/
def paretoKey (s : Solution) : ℚ := s.efficiency + s.power - s.cost

/-! ## Genetic best-so-far history (`SystemOptimizer._genetic_optimization`)

`best_fitness` starts at `-np.inf` (modelled by `⊥ : WithBot ℚ`) and is
updated by `if fitness > best_fitness` over each generation's fitness
scores; after each generation the current `best_fitness` is appended to
`fitness_history`.  The per-generation fitness scores (which depend on the
random population and the fitness function) are abstracted as a list of
rationals per generation. -/

/-- One generation's pass of the inner evaluation loop over `best_fitness`. -/
def updateBest (b : WithBot ℚ) (scores : List ℚ) : WithBot ℚ :=
  scores.foldl (fun best f => if best < (f : WithBot ℚ) then (f : WithBot ℚ) else best) b

/-- The `fitness_history` list produced by the evolution loop, starting
from best-so-far `b`. -/
def fitnessHistoryAux (b : WithBot ℚ) : List (List ℚ) → List (WithBot ℚ)
  | [] => []
  | g :: gs => updateBest b g :: fitnessHistoryAux (updateBest b g) gs

/-- The `fitness_history` of a genetic run whose generations produced the
given per-generation fitness-score lists (initial best is `-np.inf`). -/
def fitnessHistory (gens : List (List ℚ)) : List (WithBot ℚ) :=
  fitnessHistoryAux ⊥ gens

/-! ## Convergence diagnostics (`SystemOptimizer._calculate_convergence`) -/

structure Convergence where
  converged : Bool
  stability : ℚ
  final_improvement : Option ℚ
deriving DecidableEq

/-- Embedding of `np.mean` over a rational list. -/
def npMean (xs : List ℚ) : ℚ := xs.sum / xs.length

/-- Embedding of `np.var` (population variance): mean of squared deviations from the mean. -/
def npVar (xs : List ℚ) : ℚ := ((xs.map (fun x => (x - npMean xs) ^ 2)).sum) / xs.length

/-- The diagnostic `_calculate_convergence`: short-circuit for histories of fewer than 10
entries; otherwise variance of the last 10 entries (`history[-10:]`),
`converged = variance < 1e-6`, `stability = 1/(1+variance)`, and
`final_improvement = (history[-1] - history[0]) / abs(history[0])`
(0 when `history[0] == 0`).  The short branch returns a dictionary without
the `final_improvement` key, modelled as `none`. -/
def calcConvergence (history : List ℚ) : Convergence :=
  if history.length < 10 then ⟨false, 0, none⟩
  else
    let recent := history.drop (history.length - 10)
    let variance := npVar recent
    ⟨decide (variance < 1e-6), 1 / (1 + variance),
      some (if history.headI ≠ 0 then (history.getLastI - history.headI) / |history.headI| else 0)⟩

/-! ## Fitness combination (`SystemOptimizer._evaluate_fitness`)

The method first computes the performance record and then combines the
objective components.  The combination step is embedded over a performance
record whose metric keys may be absent (`performance.get(key, default)`),
mirroring lines 271-301 of the source. -/

/-- A performance dictionary restricted to the four metrics the fitness
combination and the constraint checker read; `none` models an absent key. -/
structure PerfRecord where
  overall_efficiency : Option ℚ := none
  net_power_kw : Option ℚ := none
  specific_cost : Option ℚ := none
  self_sufficiency_ratio : Option ℚ := none
deriving DecidableEq

/-- The `objectives` dictionary: maximize/minimize name lists and the
weight mapping. -/
structure Objectives where
  maximize : List String := []
  minimize : List String := []
  weights : List (String × ℚ) := []
deriving DecidableEq

/-- The weight lookup: weights.get(name) with default 1.0. -/
def getWeight (o : Objectives) (name : String) : ℚ :=
  ((o.weights.lookup name).getD 1)

/-- The constant `self.reference_power = 100000`. -/
def referencePower : ℚ := 100000

/-- The constant `self.reference_cost = 1000`. -/
def referenceCost : ℚ := 1000

/-- The objective-combination part of `_evaluate_fitness`, applied to the
performance record it computed: efficiency, power (normalized by
`reference_power`), cost (normalized by `reference_cost`, folded as
`weight * (1 - normalized_cost)`, with the absent-key default being
`self.reference_cost`), and self-sufficiency components. -/
def fitnessFromPerf (performance : PerfRecord) (objectives : Objectives) : ℚ :=
  let f1 := if "efficiency" ∈ objectives.maximize then
      getWeight objectives "efficiency" * (performance.overall_efficiency.getD 0)
    else 0
  let f2 := if "power_output" ∈ objectives.maximize then
      getWeight objectives "power_output" * ((performance.net_power_kw.getD 0) / referencePower)
    else 0
  let f3 := if "specific_cost" ∈ objectives.minimize then
      getWeight objectives "specific_cost" *
        (1 - (performance.specific_cost.getD referenceCost) / referenceCost)
    else 0
  let f4 := if "self_sufficiency" ∈ objectives.maximize then
      getWeight objectives "self_sufficiency" * (performance.self_sufficiency_ratio.getD 0)
    else 0
  f1 + f2 + f3 + f4

/-! ## Constraint checking (`SystemOptimizer._check_constraints`) -/

/-- The `constraints` dictionary: the three keys the checker reads, `none`
modelling an absent key. -/
structure Constraints where
  min_efficiency : Option ℚ := none
  max_cost : Option ℚ := none
  min_self_sufficiency : Option ℚ := none
deriving DecidableEq

/-- The checker `_check_constraints`: each present threshold is checked in turn and a
failing one returns `False` (sequential early returns are folded into
short-circuit conjunction); the metric reads use
`performance.get(key, 0)`. -/
def checkConstraints (performance : PerfRecord) (constraints : Constraints) : Bool :=
  (match constraints.min_efficiency with
   | some t => ! decide (performance.overall_efficiency.getD 0 < t)
   | none => true) &&
  (match constraints.max_cost with
   | some t => ! decide (t < performance.specific_cost.getD 0)
   | none => true) &&
  (match constraints.min_self_sufficiency with
   | some t => ! decide (performance.self_sufficiency_ratio.getD 0 < t)
   | none => true)

/-! ## Gradient descent (`SystemOptimizer._gradient_optimization` and
`SystemOptimizer._numerical_gradient`)

The seven optimization variables in source order: `pressure_ratio`,
`max_turbine_temp`, `compressor_efficiency`, `turbine_efficiency`,
`ad_retention_time`, `htc_temperature`, `htc_residence_time`. -/

/-- A parameter vector: one rational per optimization variable. -/
abbrev Params : Type := Fin 7 → ℚ

/-- Lower bounds of `self.bounds`, in source order. -/
def lowerB : Params := ![3, 800, 0.75, 0.80, 10, 453, 0.5]

/-- Upper bounds of `self.bounds`, in source order. -/
def upperB : Params := ![25, 1600, 0.95, 0.95, 40, 523, 4]

/-- The initial guess `x0 = np.array([12.0, 1400.0, 0.85, 0.88, 20.0, 473.0, 2.0])`. -/
def x0 : Params := ![12, 1400, 0.85, 0.88, 20, 473, 2]

/-- Embedding of `np.clip(v, lo, hi)`. -/
def npClip (v lo hi : ℚ) : ℚ := min (max v lo) hi

/-- The constant `learning_rate = 0.1`. -/
def learningRate : ℚ := 0.1

/-- The constant `max_iterations = 1000`. -/
def maxIterations : ℕ := 1000

/-- The constant `tolerance = 1e-6`. -/
def tolerance : ℚ := 1e-6

/-- The finite-difference step `h = 1e-5` of `_numerical_gradient`. -/
def fdStep : ℚ := 1e-5

/-- The probe vector `x_plus` of `_numerical_gradient`: coordinate `i`
shifted up by `h`, without any bounds clamping. -/
def probePlus (x : Params) (i : Fin 7) : Params :=
  Function.update x i (x i + fdStep)

/-- The probe vector `x_minus` of `_numerical_gradient`: coordinate `i`
shifted down by `h`, without any bounds clamping. -/
def probeMinus (x : Params) (i : Fin 7) : Params :=
  Function.update x i (x i - fdStep)

/-- The method `_numerical_gradient`: symmetric finite differences of the fitness,
one coordinate at a time. -/
def numericalGradient (fit : Params → ℚ) (x : Params) : Params :=
  fun i => (fit (probePlus x i) - fit (probeMinus x i)) / (2 * fdStep)

/-- One proposed update of `_gradient_optimization`:
`x_new = np.clip(x + learning_rate * gradient, lower, upper)` per
coordinate. -/
def gradStep (G : Params → Params) (x : Params) : Params :=
  fun i => npClip (x i + learningRate * G x i) (lowerB i) (upperB i)

/-- Squared Euclidean norm of the difference `x - y`; the loop's break test
`np.linalg.norm(x_new - x) < tolerance` is embedded as
`normSq x_new x < tolerance ^ 2`, which is equivalent since both sides of
the original comparison are nonnegative. -/
def normSq (x y : Params) : ℚ := ∑ i, (x i - y i) ^ 2

structure GradLoopOut where
  history : List ℚ
  x : Params
  iterations : ℕ
  stoppedEarly : Bool

/-- The gradient-descent loop, with fuel equal to the number of remaining
iterations.  Each pass computes the gradient step, breaks when the move is
below tolerance (recording `iteration + 1 = 1` more iteration), and
otherwise advances and appends the fitness at the new point to the
history. -/
def gradLoop (G : Params → Params) (fit : Params → ℚ) : ℕ → Params → GradLoopOut
  | 0, x => ⟨[], x, 0, false⟩
  | n + 1, x =>
    let xn := gradStep G x
    if normSq xn x < tolerance ^ 2 then ⟨[], x, 1, true⟩
    else
      let r := gradLoop G fit n xn
      ⟨fit xn :: r.history, r.x, r.iterations + 1, r.stoppedEarly⟩

structure GradResult where
  optimizedParameters : Params
  fitnessScore : ℚ
  iterations : ℕ
  history : List ℚ
  convergence : Convergence
  stoppedEarly : Bool

/-- The method `_gradient_optimization` for a given fitness function: run the loop
from `x0` with the numerical gradient of the fitness;
`fitness_score = history[-1] if history else 0`. -/
def gradientOptimization (fit : Params → ℚ) : GradResult :=
  let r := gradLoop (numericalGradient fit) fit maxIterations x0
  ⟨r.x, (r.history.getLast?).getD 0, r.iterations, r.history,
    calcConvergence r.history, r.stoppedEarly⟩

/-- Inclusive bounds: `lower <= v <= upper` for every variable. -/
def inBounds (x : Params) : Prop := ∀ i, lowerB i ≤ x i ∧ x i ≤ upperB i

/-- Bounds relaxed by the finite-difference step `h`. -/
def inBoundsExt (x : Params) : Prop :=
  ∀ i, lowerB i - fdStep ≤ x i ∧ x i ≤ upperB i + fdStep

/-! ## Remaining bound-producing operations of the genetic and Pareto paths -/

/-- Single-point crossover child: coordinates below the crossover point
from one parent, the rest from the other. -/
def crossChild (crossoverPoint : ℕ) (p1 p2 : Params) : Params :=
  fun j => if (j : ℕ) < crossoverPoint then p1 j else p2 j

/-- The mutation update
`np.clip(individual[var] + mutation, bounds[0], bounds[1])` for
variable `i`. -/
def mutateVar (i : Fin 7) (v mutation : ℚ) : ℚ :=
  npClip (v + mutation) (lowerB i) (upperB i)

/-- Embedding of `np.linspace a b n` at index `k`. -/
def npLinspace (a b : ℚ) (n : ℕ) (k : ℕ) : ℚ := a + k * ((b - a) / (n - 1))

/-- The Pareto grid over `pressure_ratio`: `np.linspace(3, 25, 50)`. -/
def prGridVal (k : ℕ) : ℚ := npLinspace 3 25 50 k

/-- The Pareto grid over `max_turbine_temp`: `np.linspace(800, 1600, 50)`. -/
def ttGridVal (k : ℕ) : ℚ := npLinspace 800 1600 50 k

/-! ## Dispatch (`SystemOptimizer.optimize`)

Embeds the string-dispatch variant
(`Group7 MEG 315/backend/optimization/optimizer.py`): the three strategies
are passed as thunks and are only run by their own branch; any other
method string raises `ValueError(f"Unknown optimization method: {method}")`,
modelled as `Except.error`. -/

def unknownMethodMsg (method : String) : String :=
  "Unknown optimization method: " ++ method

def optimizeDispatch {R : Type} (runGenetic runGradient runPareto : Unit → R)
    (method : String) : Except String R :=
  if method = "genetic" then Except.ok (runGenetic ())
  else if method = "gradient" then Except.ok (runGradient ())
  else if method = "pareto" then Except.ok (runPareto ())
  else Except.error (unknownMethodMsg method)

/-! # Theorems -/

/-! ## Pareto helper lemmas -/

theorem mem_insertDesc {x s : Solution} {l : List Solution} :
    x ∈ insertDesc s l ↔ x = s ∨ x ∈ l := by
  induction l with
  | nil => simp [insertDesc]
  | cons t ts ih =>
    by_cases h : t.efficiency < s.efficiency
    · simp [insertDesc, h]
    · simp [insertDesc, h, ih]
      tauto

theorem mem_sortByEfficiencyDesc {x : Solution} {l : List Solution} :
    x ∈ sortByEfficiencyDesc l ↔ x ∈ l := by
  induction l with
  | nil => simp [sortByEfficiencyDesc]
  | cons s ss ih => simp [sortByEfficiencyDesc, mem_insertDesc, ih]

theorem length_insertDesc (s : Solution) (l : List Solution) :
    (insertDesc s l).length = l.length + 1 := by
  induction l with
  | nil => simp [insertDesc]
  | cons t ts ih =>
    by_cases h : t.efficiency < s.efficiency
    · simp [insertDesc, h]
    · simp [insertDesc, h, ih]

theorem length_sortByEfficiencyDesc (l : List Solution) :
    (sortByEfficiencyDesc l).length = l.length := by
  induction l with
  | nil => rfl
  | cons s ss ih => simp [sortByEfficiencyDesc, length_insertDesc, ih]

theorem dominates_iff {o s : Solution} :
    dominates o s = true ↔
      (s.efficiency ≤ o.efficiency ∧ s.power ≤ o.power ∧ o.cost ≤ s.cost ∧
        (s.efficiency < o.efficiency ∨ s.power < o.power ∨ o.cost < s.cost)) := by
  unfold dominates
  simp only [Bool.and_eq_true, Bool.or_eq_true, decide_eq_true_eq]
  tauto

theorem paretoKey_lt_of_dominates {o s : Solution} (h : dominates o s = true) :
    paretoKey s < paretoKey o := by
  rw [dominates_iff] at h
  obtain ⟨he, hp, hc, hstrict⟩ := h
  unfold paretoKey
  rcases hstrict with h1 | h1 | h1 <;> linarith

theorem exists_max_paretoKey :
    ∀ l : List Solution, l ≠ [] → ∃ m ∈ l, ∀ a ∈ l, paretoKey a ≤ paretoKey m := by
  intro l
  induction l with
  | nil => intro h; exact absurd rfl h
  | cons x xs ih =>
    intro _
    rcases eq_or_ne xs [] with hxs | hxs
    · subst hxs
      exact ⟨x, by simp, by simp⟩
    · obtain ⟨m, hm, hmax⟩ := ih hxs
      rcases le_total (paretoKey x) (paretoKey m) with hle | hle
      · refine ⟨m, by simp [hm], ?_⟩
        intro a ha
        rcases List.mem_cons.mp ha with rfl | ha
        · exact hle
        · exact hmax a ha
      · refine ⟨x, by simp, ?_⟩
        intro a ha
        rcases List.mem_cons.mp ha with rfl | ha
        · exact le_refl _
        · exact le_trans (hmax a ha) hle

/-- C1: for every candidate-solution list (hence for every objectives and
constraints configuration, which only determine which candidates survive
to the filter), no member of the returned Pareto frontier is dominated by
another member under the code's dominance rule. -/
theorem pareto_frontier_no_dominated (sols : List Solution) (A B : Solution)
    (hA : A ∈ paretoFrontier sols) (hB : B ∈ paretoFrontier sols) :
    dominates B A = false := by
  have hA' := mem_sortByEfficiencyDesc.mp hA
  have hB' := mem_sortByEfficiencyDesc.mp hB
  rw [List.mem_filter] at hA' hB'
  obtain ⟨hAmem, hAkeep⟩ := hA'
  obtain ⟨hBmem, _⟩ := hB'
  by_contra hne
  have hdom : dominates B A = true := by
    cases h : dominates B A
    · exact absurd h hne
    · rfl
  have hany : sols.any (fun other => dominates other A) = true :=
    List.any_eq_true.mpr ⟨B, hBmem, hdom⟩
  rw [hany] at hAkeep
  exact Bool.noConfusion hAkeep

/-- C1 witness: a concrete two-candidate instance where both frontier
members are mutually non-dominating. -/
theorem pareto_frontier_no_dominated_witness :
    dominates (Solution.mk 1 1 1) (Solution.mk 1 1 1) = false :=
  pareto_frontier_no_dominated [Solution.mk 1 1 1, Solution.mk 0 2 1]
    (Solution.mk 1 1 1) (Solution.mk 1 1 1) (by decide) (by decide)

/-- C10: whenever the candidate list surviving constraint filtering is
non-empty, the returned Pareto frontier is non-empty: a candidate
maximizing `efficiency + power - cost` is dominated by no one. -/
theorem pareto_frontier_nonempty (sols : List Solution) (h : sols ≠ []) :
    paretoFrontier sols ≠ [] := by
  obtain ⟨m, hm, hmax⟩ := exists_max_paretoKey sols h
  have hany : sols.any (fun other => dominates other m) = false := by
    cases hcase : sols.any (fun other => dominates other m)
    · rfl
    · obtain ⟨o, ho, hdom⟩ := List.any_eq_true.mp hcase
      exact absurd (hmax o ho) (not_le.mpr (paretoKey_lt_of_dominates hdom))
  have hmf : m ∈ sols.filter (fun sol => ! sols.any (fun other => dominates other sol)) :=
    List.mem_filter.mpr ⟨hm, by rw [hany]; rfl⟩
  intro hemp
  have hlen : (sols.filter (fun sol => ! sols.any (fun other => dominates other sol))).length = 0 := by
    have := length_sortByEfficiencyDesc
      (sols.filter (fun sol => ! sols.any (fun other => dominates other sol)))
    rw [paretoFrontier] at hemp
    rw [hemp] at this
    exact this.symm
  rw [List.length_eq_zero] at hlen
  rw [hlen] at hmf
  exact List.not_mem_nil m hmf

/-- C10 witness: a singleton candidate list yields a non-empty frontier. -/
theorem pareto_frontier_nonempty_witness :
    paretoFrontier [Solution.mk 1 1 1] ≠ [] :=
  pareto_frontier_nonempty [Solution.mk 1 1 1] (by decide)

/-! ## Genetic best-so-far history -/

theorem le_updateBest : ∀ (scores : List ℚ) (b : WithBot ℚ), b ≤ updateBest b scores
  | [], _ => le_rfl
  | f :: fs, b => by
    have h1 : b ≤ (if b < (f : WithBot ℚ) then (f : WithBot ℚ) else b) := by
      split
      · next h => exact le_of_lt h
      · exact le_rfl
    have h2 := le_updateBest fs (if b < (f : WithBot ℚ) then (f : WithBot ℚ) else b)
    exact le_trans h1 h2

theorem le_of_mem_fitnessHistoryAux :
    ∀ (gens : List (List ℚ)) (b x : WithBot ℚ), x ∈ fitnessHistoryAux b gens → b ≤ x
  | [], _, x, h => absurd h (List.not_mem_nil x)
  | g :: gs, b, x, h => by
    rcases List.mem_cons.mp h with rfl | h'
    · exact le_updateBest g b
    · exact le_trans (le_updateBest g b) (le_of_mem_fitnessHistoryAux gs _ x h')

theorem pairwise_fitnessHistoryAux :
    ∀ (gens : List (List ℚ)) (b : WithBot ℚ), (fitnessHistoryAux b gens).Pairwise (· ≤ ·)
  | [], _ => List.Pairwise.nil
  | g :: gs, b => by
    refine List.Pairwise.cons ?_ (pairwise_fitnessHistoryAux gs _)
    intro x hx
    exact le_of_mem_fitnessHistoryAux gs _ x hx

/-- C2: for every run of the genetic optimizer (the per-generation fitness
score lists are arbitrary, covering every seed, population size and
generation count), the `fitness_history` is non-decreasing: each entry is
the best-so-far fitness across all generations seen so far. -/
theorem genetic_history_monotone (gens : List (List ℚ)) (i j : ℕ) (hij : i ≤ j)
    (hj : j < (fitnessHistory gens).length) :
    (fitnessHistory gens).get ⟨i, lt_of_le_of_lt hij hj⟩ ≤
      (fitnessHistory gens).get ⟨j, hj⟩ := by
  rcases eq_or_lt_of_le hij with rfl | hlt
  · exact le_rfl
  · exact List.pairwise_iff_get.mp (pairwise_fitnessHistoryAux gens ⊥)
      ⟨i, lt_of_le_of_lt hij hj⟩ ⟨j, hj⟩ hlt

/-- C2 witness: a two-generation run whose second generation is worse; the
recorded history still does not regress. -/
theorem genetic_history_monotone_witness :
    (fitnessHistory [[1], [0]]).get ⟨0, by with_unfolding_all decide⟩ ≤
      (fitnessHistory [[1], [0]]).get ⟨1, by with_unfolding_all decide⟩ :=
  genetic_history_monotone [[1], [0]] 0 1 (by norm_num) (by with_unfolding_all decide)

/-! ## Convergence diagnostics -/

theorem npVar_replicate_ten (c : ℚ) : npVar (List.replicate 10 c) = 0 := by
  have hmean : npMean (List.replicate 10 c) = c := by
    unfold npMean
    simp [List.sum_replicate]
    ring
  unfold npVar
  rw [hmean]
  simp [List.map_replicate, List.sum_replicate]

/-- C5: the convergence diagnostic returns `{converged: false, stability: 0}`
(and no `final_improvement` key) for histories of fewer than 10 entries;
otherwise it takes the last 10 entries (a length-10 suffix), computes their
variance and returns `converged = variance < 1e-6`,
`stability = 1/(1+variance)` and
`final_improvement = (last - first)/|first|` (0 when `first = 0`); in
particular 10 identical values yield `converged = true`, `stability = 1`. -/
theorem calc_convergence_spec :
    (∀ h : List ℚ, h.length < 10 → calcConvergence h = ⟨false, 0, none⟩) ∧
    (∀ h : List ℚ, 10 ≤ h.length →
      ((h.drop (h.length - 10)).length = 10 ∧ h.drop (h.length - 10) <:+ h) ∧
      calcConvergence h =
        ⟨decide (npVar (h.drop (h.length - 10)) < 1e-6),
         1 / (1 + npVar (h.drop (h.length - 10))),
         some (if h.headI = 0 then 0 else (h.getLastI - h.headI) / |h.headI|)⟩) ∧
    (∀ c : ℚ, calcConvergence (List.replicate 10 c) = ⟨true, 1, some 0⟩) := by
  refine ⟨?_, ?_, ?_⟩
  · intro h hlen
    simp [calcConvergence, hlen]
  · intro h hlen
    have hnot : ¬ h.length < 10 := not_lt.mpr hlen
    refine ⟨⟨?_, List.drop_suffix _ _⟩, ?_⟩
    · simp only [List.length_drop]
      omega
    · unfold calcConvergence
      rw [if_neg hnot]
      rcases eq_or_ne h.headI 0 with h0 | h0
      · simp [h0]
      · simp [h0]
  · intro c
    have hlen : (List.replicate 10 c).length = 10 := by simp
    unfold calcConvergence
    rw [if_neg (by simp)]
    rw [hlen]
    simp only [Nat.sub_self, List.drop_zero, npVar_replicate_ten]
    have h1 : (List.replicate 10 c).headI = c := by simp
    have h2 : (List.replicate 10 c).getLastI = c := by
      simp [List.getLastI_eq_getLast?]
    rw [h1, h2]
    rcases eq_or_ne c 0 with rfl | hc
    · norm_num
    · simp [hc]
      norm_num

/-- C5 witness: concrete instances of all three clauses. -/
theorem calc_convergence_spec_witness :
    calcConvergence [1, 2] = ⟨false, 0, none⟩ ∧
    ((([0, 1, 2, 3, 4, 5, 6, 7, 8, 9] : List ℚ).drop
        (([0, 1, 2, 3, 4, 5, 6, 7, 8, 9] : List ℚ).length - 10)).length = 10 ∧
      (([0, 1, 2, 3, 4, 5, 6, 7, 8, 9] : List ℚ).drop
        (([0, 1, 2, 3, 4, 5, 6, 7, 8, 9] : List ℚ).length - 10)) <:+
        ([0, 1, 2, 3, 4, 5, 6, 7, 8, 9] : List ℚ)) ∧
    calcConvergence (List.replicate 10 (5 : ℚ)) = ⟨true, 1, some 0⟩ :=
  ⟨calc_convergence_spec.1 [1, 2] (by norm_num),
   (calc_convergence_spec.2.1 [0, 1, 2, 3, 4, 5, 6, 7, 8, 9] (by norm_num)).1,
   calc_convergence_spec.2.2 5⟩

/-! ## Fitness combination: defaults for missing metrics -/

/-- C6 counterexample: for a performance record lacking `specific_cost`
and objectives minimizing `specific_cost` (all other components inactive,
so the fitness is exactly the cost component), the code yields 0 — because
`performance.get('specific_cost', self.reference_cost)` defaults to the
reference cost, not to 0 — while the claim predicts
`weight * (1 - 0 / referenceCost) = 1`. -/
theorem fitness_missing_cost_counterexample :
    fitnessFromPerf {} { minimize := ["specific_cost"] } = 0 ∧
    fitnessFromPerf {} { minimize := ["specific_cost"] } ≠
      getWeight { minimize := ["specific_cost"] } "specific_cost" *
        (1 - 0 / referenceCost) := by
  have h : fitnessFromPerf {} { minimize := ["specific_cost"] } = 0 := by
    simp [fitnessFromPerf, getWeight, referenceCost]
  refine ⟨h, ?_⟩
  rw [h]
  simp [getWeight, referenceCost]

/-- C6 amended: in the fitness combination, metrics named in the
objectives but absent from the performance record are treated as 0 for the
maximized metrics (efficiency, power, self-sufficiency), while an absent
`specific_cost` is treated as `referenceCost` — so its component is
`weight * (1 - referenceCost/referenceCost) = 0`, not `weight`. -/
theorem fitness_missing_metric_defaults :
    (∀ (p : PerfRecord) (o : Objectives), p.overall_efficiency = none →
      fitnessFromPerf p o = fitnessFromPerf { p with overall_efficiency := some 0 } o) ∧
    (∀ (p : PerfRecord) (o : Objectives), p.net_power_kw = none →
      fitnessFromPerf p o = fitnessFromPerf { p with net_power_kw := some 0 } o) ∧
    (∀ (p : PerfRecord) (o : Objectives), p.self_sufficiency_ratio = none →
      fitnessFromPerf p o = fitnessFromPerf { p with self_sufficiency_ratio := some 0 } o) ∧
    (∀ (p : PerfRecord) (o : Objectives), p.specific_cost = none →
      fitnessFromPerf p o =
        fitnessFromPerf { p with specific_cost := some referenceCost } o) := by
  refine ⟨?_, ?_, ?_, ?_⟩ <;> (intro p o h; simp [fitnessFromPerf, h])

/-- C6 amended witness: the four defaulting equalities at an all-absent
record with every objective active. -/
theorem fitness_missing_metric_defaults_witness :
    (fitnessFromPerf {}
        { maximize := ["efficiency", "power_output", "self_sufficiency"],
          minimize := ["specific_cost"] } =
      fitnessFromPerf { overall_efficiency := some 0 }
        { maximize := ["efficiency", "power_output", "self_sufficiency"],
          minimize := ["specific_cost"] }) ∧
    (fitnessFromPerf {}
        { maximize := ["efficiency", "power_output", "self_sufficiency"],
          minimize := ["specific_cost"] } =
      fitnessFromPerf { specific_cost := some referenceCost }
        { maximize := ["efficiency", "power_output", "self_sufficiency"],
          minimize := ["specific_cost"] }) :=
  ⟨fitness_missing_metric_defaults.1 {} _ rfl,
   fitness_missing_metric_defaults.2.2.2 {} _ rfl⟩

/-! ## Constraint checking -/

/-- C7: the constraint checker accepts exactly when every present
threshold is satisfied (`overall_efficiency >= min_efficiency`,
`specific_cost <= max_cost`, `self_sufficiency_ratio >=
min_self_sufficiency`, metrics read with default 0); absent keys are
skipped, so the empty constraints mapping always yields `true`. -/
theorem check_constraints_spec :
    (∀ (p : PerfRecord) (c : Constraints),
      checkConstraints p c = true ↔
        ((∀ t, c.min_efficiency = some t → t ≤ p.overall_efficiency.getD 0) ∧
         (∀ t, c.max_cost = some t → p.specific_cost.getD 0 ≤ t) ∧
         (∀ t, c.min_self_sufficiency = some t → t ≤ p.self_sufficiency_ratio.getD 0))) ∧
    (∀ p : PerfRecord, checkConstraints p {} = true) := by
  constructor
  · intro p c
    obtain ⟨e, mc, ms⟩ := c
    cases e <;> cases mc <;> cases ms <;>
      simp [checkConstraints, not_lt, and_assoc]
  · intro p
    rfl

/-- C7 witness: a record meeting three present thresholds is accepted. -/
theorem check_constraints_spec_witness :
    checkConstraints
      { overall_efficiency := some 0.4, specific_cost := some 900,
        self_sufficiency_ratio := some 0.5 }
      { min_efficiency := some 0.3, max_cost := some 1000,
        min_self_sufficiency := some 0.4 } = true :=
  (check_constraints_spec.1 _ _).mpr
    (by
      refine ⟨?_, ?_, ?_⟩ <;>
        (intro t ht; simp only [Option.some.injEq] at ht; subst ht; norm_num))

/-! ## Dispatch -/

/-- C8: `optimize` dispatches exactly on the method selector: the three
known method strings run their strategy, and any other string yields the
unsupported-method error without running any strategy (the result does not
depend on the strategy thunks). -/
theorem optimize_dispatch_spec :
    ∀ (R : Type) (g gr p : Unit → R),
      optimizeDispatch g gr p "genetic" = Except.ok (g ()) ∧
      optimizeDispatch g gr p "gradient" = Except.ok (gr ()) ∧
      optimizeDispatch g gr p "pareto" = Except.ok (p ()) ∧
      ∀ m : String, m ≠ "genetic" → m ≠ "gradient" → m ≠ "pareto" →
        optimizeDispatch g gr p m = Except.error (unknownMethodMsg m) ∧
        ∀ (g' gr' p' : Unit → R),
          optimizeDispatch g gr p m = optimizeDispatch g' gr' p' m := by
  intro R g gr p
  refine ⟨rfl, rfl, rfl, ?_⟩
  intro m h1 h2 h3
  constructor
  · simp [optimizeDispatch, h1, h2, h3]
  · intro g' gr' p'
    simp [optimizeDispatch, h1, h2, h3]

/-- C8 witness: an unsupported method string produces the error. -/
theorem optimize_dispatch_spec_witness :
    optimizeDispatch (fun _ => (1 : ℕ)) (fun _ => 2) (fun _ => 3) "annealing" =
      Except.error (unknownMethodMsg "annealing") :=
  ((optimize_dispatch_spec ℕ (fun _ => 1) (fun _ => 2) (fun _ => 3)).2.2.2
    "annealing" (by decide) (by decide) (by decide)).1

/-! ## Gradient descent: termination and early-stop behaviour -/

theorem gradLoop_iterations_le (G : Params → Params) (fit : Params → ℚ) :
    ∀ (n : ℕ) (x : Params), (gradLoop G fit n x).iterations ≤ n
  | 0, _ => le_rfl
  | n + 1, x => by
    simp only [gradLoop]
    split
    · exact Nat.succ_le_succ (Nat.zero_le n)
    · exact Nat.succ_le_succ (gradLoop_iterations_le G fit n (gradStep G x))

theorem gradLoop_early (G : Params → Params) (fit : Params → ℚ) :
    ∀ (n : ℕ) (x : Params), (gradLoop G fit n x).stoppedEarly = true →
      normSq (gradStep G (gradLoop G fit n x).x) (gradLoop G fit n x).x < tolerance ^ 2
  | 0, x => by simp [gradLoop]
  | n + 1, x => by
    simp only [gradLoop]
    split
    · next h => exact fun _ => h
    · exact gradLoop_early G fit n (gradStep G x)

/-- C4: the gradient optimizer performs at most `max_iterations = 1000`
iterations, and whenever it breaks out early, the Euclidean norm of the
difference between the last proposed bounds-clipped iterate and the
previous (returned) iterate is strictly below `tolerance = 1e-6`. -/
theorem gradient_termination (fit : Params → ℚ) :
    (gradientOptimization fit).iterations ≤ maxIterations ∧
    ((gradientOptimization fit).stoppedEarly = true →
      Real.sqrt ((normSq (gradStep (numericalGradient fit)
          (gradientOptimization fit).optimizedParameters)
        (gradientOptimization fit).optimizedParameters : ℚ) : ℝ) < 1e-6) := by
  constructor
  · exact gradLoop_iterations_le (numericalGradient fit) fit maxIterations x0
  · intro hb
    have h := gradLoop_early (numericalGradient fit) fit maxIterations x0 hb
    rw [Real.sqrt_lt' (by norm_num)]
    have hcast : ((tolerance ^ 2 : ℚ) : ℝ) = (1e-6 : ℝ) ^ 2 := by
      norm_num [tolerance]
    calc ((normSq (gradStep (numericalGradient fit)
            (gradientOptimization fit).optimizedParameters)
          (gradientOptimization fit).optimizedParameters : ℚ) : ℝ)
        < ((tolerance ^ 2 : ℚ) : ℝ) := by exact_mod_cast h
      _ = (1e-6 : ℝ) ^ 2 := hcast

/-- C4 witness: with the all-zero fitness the numerical gradient vanishes,
the first proposed step does not move, and the loop stops early. -/
theorem gradient_termination_witness :
    (gradientOptimization (fun _ => 0)).iterations ≤ maxIterations ∧
    Real.sqrt ((normSq (gradStep (numericalGradient (fun _ => 0))
        (gradientOptimization (fun _ => 0)).optimizedParameters)
      (gradientOptimization (fun _ => 0)).optimizedParameters : ℚ) : ℝ) < 1e-6 :=
  ⟨(gradient_termination (fun _ => 0)).1,
   (gradient_termination (fun _ => 0)).2 (by with_unfolding_all decide)⟩

/-- C9: when the very first proposed update already moves less than the
tolerance, the loop breaks before recording any fitness value, so the
returned history is empty, the fitness score is the `history[-1] if
history else 0` default 0 regardless of the fitness at the initial point,
and the convergence diagnostics are `{converged: false, stability: 0}`. -/
theorem gradient_first_step_early_stop (fit : Params → ℚ)
    (h : normSq (gradStep (numericalGradient fit) x0) x0 < tolerance ^ 2) :
    (gradientOptimization fit).history = [] ∧
    (gradientOptimization fit).fitnessScore = 0 ∧
    (gradientOptimization fit).convergence = ⟨false, 0, none⟩ := by
  have hunfold : gradLoop (numericalGradient fit) fit maxIterations x0 =
      ⟨[], x0, 1, true⟩ := by
    show gradLoop (numericalGradient fit) fit (999 + 1) x0 = ⟨[], x0, 1, true⟩
    rw [gradLoop]
    split
    · rfl
    · next hc => exact absurd h hc
  unfold gradientOptimization
  rw [hunfold]
  refine ⟨rfl, rfl, ?_⟩
  simp [calcConvergence]

/-- C9 witness: the all-zero fitness makes the first proposed step
stationary, and the degenerate result fields are observed. -/
theorem gradient_first_step_early_stop_witness :
    (gradientOptimization (fun _ => 0)).history = [] ∧
    (gradientOptimization (fun _ => 0)).fitnessScore = 0 ∧
    (gradientOptimization (fun _ => 0)).convergence = ⟨false, 0, none⟩ :=
  gradient_first_step_early_stop (fun _ => 0) (by with_unfolding_all decide)

/-! ## Bounds invariant -/

instance instDecInBounds (x : Params) : Decidable (inBounds x) :=
  inferInstanceAs (Decidable (∀ i, lowerB i ≤ x i ∧ x i ≤ upperB i))

instance instDecInBoundsExt (x : Params) : Decidable (inBoundsExt x) :=
  inferInstanceAs (Decidable (∀ i, lowerB i - fdStep ≤ x i ∧ x i ≤ upperB i + fdStep))

theorem npClip_mem {lo hi : ℚ} (v : ℚ) (h : lo ≤ hi) :
    lo ≤ npClip v lo hi ∧ npClip v lo hi ≤ hi := by
  unfold npClip
  exact ⟨le_min (le_max_right v lo) h, min_le_right _ _⟩

theorem lowerB_le_upperB : ∀ i, lowerB i ≤ upperB i := by
  with_unfolding_all decide

/-- C3 counterexample: the update `np.clip(x + 0.1 * gradient, lo, hi)`
applied at the initial guess with a gradient of all ones is a legitimate
bounds-clipped iterate (its `compressor_efficiency` entry sits exactly on
the 0.95 upper bound), yet the finite-difference probe `x_plus` that
`_numerical_gradient` builds from it — `x[2] + 1e-5` with no clamping —
leaves the variable's `[0.75, 0.95]` range, refuting the claim for probe
vectors. -/
theorem bounds_invariant_counterexample :
    inBounds (gradStep (fun _ => fun _ => 1) x0) ∧
    ¬ inBounds (probePlus (gradStep (fun _ => fun _ => 1) x0) 2) := by
  constructor <;> with_unfolding_all decide

/-- C3 amended: every parameter value produced by the optimizers lies in
its variable's inclusive `[lowerBound, upperBound]` range, **except** the
finite-difference probe vectors of `_numerical_gradient`, which are only
guaranteed to lie in the `h = 1e-5`-relaxed range
`[lowerBound - h, upperBound + h]`.  Covered in order: bounds-clipped
gradient iterates (for every gradient vector), the gradient initial guess,
the probes of an in-bounds iterate, mutation results (for every mutation
offset), single-point crossover children of in-bounds parents, and the
Pareto grid samples of both swept variables. -/
theorem bounds_invariant_amended :
    (∀ (G : Params → Params) (x : Params), inBounds (gradStep G x)) ∧
    inBounds x0 ∧
    (∀ (x : Params) (i : Fin 7), inBounds x →
      inBoundsExt (probePlus x i) ∧ inBoundsExt (probeMinus x i)) ∧
    (∀ (i : Fin 7) (v m : ℚ), lowerB i ≤ mutateVar i v m ∧ mutateVar i v m ≤ upperB i) ∧
    (∀ (cp : ℕ) (p1 p2 : Params), inBounds p1 → inBounds p2 →
      inBounds (crossChild cp p1 p2)) ∧
    (∀ k : ℕ, k ≤ 49 →
      (lowerB 0 ≤ prGridVal k ∧ prGridVal k ≤ upperB 0) ∧
      (lowerB 1 ≤ ttGridVal k ∧ ttGridVal k ≤ upperB 1)) := by
  have hfd : (0 : ℚ) ≤ fdStep := by norm_num [fdStep]
  refine ⟨?_, ?_, ?_, ?_, ?_, ?_⟩
  · intro G x i
    exact npClip_mem _ (lowerB_le_upperB i)
  · with_unfolding_all decide
  · intro x i hx
    constructor <;> (intro j; rcases eq_or_ne j i with rfl | hne)
    · rw [probePlus, Function.update_same]
      have := hx j
      constructor <;> linarith [this.1, this.2]
    · rw [probePlus, Function.update_noteq hne]
      have := hx j
      constructor <;> linarith [this.1, this.2]
    · rw [probeMinus, Function.update_same]
      have := hx j
      constructor <;> linarith [this.1, this.2]
    · rw [probeMinus, Function.update_noteq hne]
      have := hx j
      constructor <;> linarith [this.1, this.2]
  · intro i v m
    exact npClip_mem _ (lowerB_le_upperB i)
  · intro cp p1 p2 h1 h2 j
    unfold crossChild
    split
    · exact h1 j
    · exact h2 j
  · intro k hk
    have hk' : (k : ℚ) ≤ 49 := by exact_mod_cast hk
    have hk0 : (0 : ℚ) ≤ (k : ℚ) := Nat.cast_nonneg k
    have h0 : lowerB 0 = 3 := rfl
    have h0' : upperB 0 = 25 := rfl
    have h1 : lowerB 1 = 800 := rfl
    have h1' : upperB 1 = 1600 := rfl
    rw [h0, h0', h1, h1']
    unfold prGridVal ttGridVal npLinspace
    norm_num
    constructor <;> nlinarith

/-- C3 amended witness: concrete instantiations of each bounded clause. -/
theorem bounds_invariant_amended_witness :
    inBounds (gradStep (fun _ => fun _ => 0) x0) ∧
    inBoundsExt (probePlus x0 0) ∧
    inBounds (crossChild 3 x0 x0) ∧
    (lowerB 0 ≤ prGridVal 7 ∧ prGridVal 7 ≤ upperB 0) :=
  ⟨bounds_invariant_amended.1 (fun _ => fun _ => 0) x0,
   (bounds_invariant_amended.2.2.1 x0 0 bounds_invariant_amended.2.1).1,
   bounds_invariant_amended.2.2.2.2.1 3 x0 x0
     bounds_invariant_amended.2.1 bounds_invariant_amended.2.1,
   (bounds_invariant_amended.2.2.2.2.2 7 (by norm_num)).1⟩
